import Mathlib

/-!
Verification development for the COBOL CodeSense repository.

This file gives a shallow embedding in Lean 4 of the two core source files the
claims are about:

  * `cobol_parser.py` : `parse_cobol_to_ast` (normalization of the raw text,
    pattern-driven extraction of program id, procedures, copybooks, call
    targets, working-storage data items and file descriptors, plus the
    `_estimate_complexity` scorer and the exception fallback dictionary), and
  * `analytics_service.py` : `generate_codebase_overview`,
    `analyze_program_relationships`, `identify_refactoring_opportunities` and
    `_categorize_by_size` of class `AnalyticsService`.

Modelling conventions, noted once here:

  * Python strings are `String` or `List Char`; the regular expressions of the
    source are small and fixed, so each one is embedded as an executable
    scanner that reproduces the left-to-right, non-overlapping `re.findall`
    and first-match `re.search` semantics of that concrete pattern (greedy
    character-class runs; on a failed attempt the scan advances one
    character, after a match it resumes at the end of the match).  The
    scanners carry a fuel argument, initialized with the length of the input;
    every successful attempt consumes at least one character, so this fuel is
    never exhausted, and the fuel recursion keeps every definition
    structurally recursive and hence evaluable by the kernel.
  * Character classes are modelled over the ASCII range (`\s`, `\d`, `\w`,
    `str.upper`, `str.strip`); the repository feeds the parser COBOL text.
  * A Python `dict` is an association list in key-insertion order, matching
    the guaranteed iteration order of `dict`; `list(set(...))`, whose
    iteration order Python leaves unspecified, is modelled as `List.dedup`,
    and only set-level facts are proved about such fields.
  * A Python method reading the database (`get_all_programs()`) becomes a
    function parameter: the analytics functions take the list of stored
    program records as an argument.
  * Dictionary keys that are present on one control-flow path and absent on
    another (the `program_id`, `metadata` and `error` keys of the parser, the
    statistics keys of the overview) are modelled as `Option` fields, `none`
    meaning the key is absent.
  * Pure Lean functions cannot raise, and on genuine string input no
    operation inside the `try` block of `parse_cobol_to_ast` can raise
    either; the `except` branch (source lines 134-147) is embedded as the
    explicit function `parse_error_result`, and `parse_cobol_to_ast_run`
    takes an oracle saying whether the extraction raised, so that both
    branches of the source are represented.
-/

namespace CodeSense

/-! ## Character classes (ASCII fragment of the Python semantics) -/

/-- Python `\s` (and `str.strip` / `str.isspace`) on ASCII text:
space, tab, newline, carriage return, vertical tab, form feed. -/
def isPySpace (c : Char) : Bool :=
  c == ' ' || c == '\t' || c == '\n' || c == '\r' || c == Char.ofNat 11 || c == Char.ofNat 12

/-- Python `\d` on ASCII text. -/
def isDigitCh (c : Char) : Bool :=
  c.isDigit

/-- The character class `[A-Z0-9\-]` used by every identifier-shaped group in
`cobol_parser.py`. -/
def isIdentCh (c : Char) : Bool :=
  (decide ('A' ≤ c) && decide (c ≤ 'Z')) || c.isDigit || c == '-'

/-- Python `\w` on ASCII text: `[A-Za-z0-9_]`. -/
def isWordCh (c : Char) : Bool :=
  (decide ('A' ≤ c) && decide (c ≤ 'Z')) || (decide ('a' ≤ c) && decide (c ≤ 'z')) ||
    c.isDigit || c == '_'

/-! ## Generic regex-style scanners

`scanAux` embeds `re.findall`: at each position an `attempt` tries to match
the pattern; on success the capture is recorded and the scan resumes after
the match, on failure the scan advances one character.  `searchAux` embeds
`re.search`, returning the first capture.  The fuel starts at the length of
the input; each step consumes at least one character of it. -/

def scanAux {γ : Type} (attempt : List Char → Option (γ × List Char)) :
    Nat → List Char → List γ
  | 0, _ => []
  | _, [] => []
  | fuel + 1, c :: rest =>
    match attempt (c :: rest) with
    | some (cap, rem) => cap :: scanAux attempt fuel rem
    | none => scanAux attempt fuel rest

/-- `re.findall(pattern, s)` for the pattern embedded by `attempt`. -/
def scanMatches {γ : Type} (attempt : List Char → Option (γ × List Char))
    (s : List Char) : List γ :=
  scanAux attempt s.length s

def searchAux {γ : Type} (attempt : List Char → Option (γ × List Char)) :
    Nat → List Char → Option γ
  | 0, _ => none
  | _, [] => none
  | fuel + 1, c :: rest =>
    match attempt (c :: rest) with
    | some (cap, _) => some cap
    | none => searchAux attempt fuel rest

/-- `re.search(pattern, s)` for the pattern embedded by `attempt`, returning
the first capture. -/
def searchCapture {γ : Type} (attempt : List Char → Option (γ × List Char))
    (s : List Char) : Option γ :=
  searchAux attempt s.length s

/-- Attempt for a plain literal pattern (no character classes), as used by
`re.findall(keyword, content)` in `_estimate_complexity`. -/
def attemptLit (pat : List Char) (s : List Char) : Option (List Char × List Char) :=
  if pat.isPrefixOf s then some (pat, s.drop pat.length) else none

/-- Number of non-overlapping occurrences of the literal `pat`, i.e.
`len(re.findall(pat, s))` for a pattern without metacharacters. -/
def countOccs (pat : List Char) (s : List Char) : Nat :=
  (scanMatches (attemptLit pat) s).length

/-- Attempt for `KW\s+([A-Z0-9\-]+)` at the current position (`KW` a literal,
possibly containing a literal dot such as `PROGRAM-ID.`).  The greedy runs
need no backtracking: none of the three classes overlap on their boundary
characters. -/
def attemptKwIdent (kw : List Char) (s : List Char) : Option (List Char × List Char) :=
  if kw.isPrefixOf s then
    let afterKw := s.drop kw.length
    if (afterKw.takeWhile isPySpace).isEmpty then none
    else
      let afterWs := afterKw.dropWhile isPySpace
      let ident := afterWs.takeWhile isIdentCh
      if ident.isEmpty then none
      else some (ident, afterWs.dropWhile isIdentCh)
  else none

/-- Attempt for `CALL\s+["\']([A-Z0-9\-]+)["\']` at the current position.
The two quotes need not be of the same kind, exactly as in the source
pattern. -/
def attemptCall (s : List Char) : Option (List Char × List Char) :=
  if ("CALL".data).isPrefixOf s then
    let afterKw := s.drop 4
    if (afterKw.takeWhile isPySpace).isEmpty then none
    else
      match afterKw.dropWhile isPySpace with
      | [] => none
      | q :: afterQ =>
        if q == '"' || q == Char.ofNat 39 then
          let ident := afterQ.takeWhile isIdentCh
          if ident.isEmpty then none
          else
            match afterQ.dropWhile isIdentCh with
            | [] => none
            | q2 :: rem =>
              if q2 == '"' || q2 == Char.ofNat 39 then some (ident, rem) else none
        else none
  else none

/-- Attempt for `([A-Z0-9\-]+)\s+SECTION\.` at the current position. -/
def attemptSection (s : List Char) : Option (List Char × List Char) :=
  let ident := s.takeWhile isIdentCh
  if ident.isEmpty then none
  else
    let afterId := s.dropWhile isIdentCh
    if (afterId.takeWhile isPySpace).isEmpty then none
    else
      let afterWs := afterId.dropWhile isPySpace
      if ("SECTION.".data).isPrefixOf afterWs then some (ident, afterWs.drop 8)
      else none

/-- Attempt for `(\d+)\s+([A-Z0-9\-]+)` at the current position, capturing
both groups; also used without its captures to count the declaration-shaped
tokens of `_estimate_complexity`. -/
def attemptDataItem (s : List Char) : Option ((List Char × List Char) × List Char) :=
  let digits := s.takeWhile isDigitCh
  if digits.isEmpty then none
  else
    let afterD := s.dropWhile isDigitCh
    if (afterD.takeWhile isPySpace).isEmpty then none
    else
      let afterWs := afterD.dropWhile isPySpace
      let ident := afterWs.takeWhile isIdentCh
      if ident.isEmpty then none
      else some ((digits, ident), afterWs.dropWhile isIdentCh)

/-! ## Line handling and the normalizer (source lines 38-51) -/

/-- Python `str.split(sep)` for a one-character separator: always returns at
least one piece, `[""].` on the empty string. -/
def splitOnChar (sep : Char) : List Char → List (List Char)
  | [] => [[]]
  | c :: rest =>
    if c == sep then [] :: splitOnChar sep rest
    else
      match splitOnChar sep rest with
      | [] => [[c]]
      | l :: ls => (c :: l) :: ls

/-- Python `str.strip()`: remove leading and trailing whitespace. -/
def stripChars (l : List Char) : List Char :=
  ((l.dropWhile isPySpace).reverse.dropWhile isPySpace).reverse

/-- One iteration of the cleaning loop (source lines 42-49): drop comment
lines (stripped line starting with `*`), cut the first six characters of any
line longer than six characters, then strip the line. -/
def cleanLine (line : List Char) : Option (List Char) :=
  if (stripChars line).head? = some '*' then none
  else some (stripChars (if line.length > 6 then line.drop 6 else line))

/-- The normalizer (source lines 38-51): split into lines, clean each line,
rejoin with newlines, uppercase. -/
def normalize (raw : List Char) : List Char :=
  (List.intercalate ['\n'] ((splitOnChar '\n' raw).filterMap cleanLine)).map Char.toUpper

/-- Per-line capture for the multiline pattern `^([A-Z0-9\-]+)\.\s*$`: an
identifier run from the start of the line, a literal dot, then only
whitespace to the end of the line. -/
def paragraphCapture (line : List Char) : Option (List Char) :=
  let ident := line.takeWhile isIdentCh
  if ident.isEmpty then none
  else
    match line.dropWhile isIdentCh with
    | '.' :: rest => if rest.all isPySpace then some ident else none
    | _ => none

/-- `re.findall(r'^([A-Z0-9\-]+)\.\s*$', content, re.MULTILINE)`.  With the
`MULTILINE` anchors every match lies within a single line, so the scan is a
per-line check. -/
def paragraphMatches (content : List Char) : List (List Char) :=
  (splitOnChar '\n' content).filterMap paragraphCapture

/-! ## Bounded regions (source lines 91-117)

The two region patterns use a lazy group ended by a lookahead,
`(.*?)(?=\w+\s+SECTION\.|PROCEDURE\s+DIVISION|$)` with `re.DOTALL`: the
captured region is the shortest prefix of the text after the header whose end
position satisfies the lookahead.  Without `re.MULTILINE`, `$` holds at the
end of the string and just before a trailing newline. -/

/-- The lookahead alternative `\w+\s+SECTION\.` at the current position. -/
def wordSectionAt (s : List Char) : Bool :=
  !(s.takeWhile isWordCh).isEmpty &&
    (let afterW := s.dropWhile isWordCh
     !(afterW.takeWhile isPySpace).isEmpty &&
       ("SECTION.".data).isPrefixOf (afterW.dropWhile isPySpace))

/-- The lookahead alternative `PROCEDURE\s+DIVISION` at the current position. -/
def procDivisionAt (s : List Char) : Bool :=
  ("PROCEDURE".data).isPrefixOf s &&
    (let afterKw := s.drop 9
     !(afterKw.takeWhile isPySpace).isEmpty &&
       ("DIVISION".data).isPrefixOf (afterKw.dropWhile isPySpace))

/-- The anchor `$` without `re.MULTILINE`: end of string, or just before a
final newline. -/
def dollarAt (s : List Char) : Bool :=
  s.isEmpty || s == ['\n']

/-- End-of-region lookahead for the working-storage pattern. -/
def lookaheadWs (s : List Char) : Bool :=
  wordSectionAt s || procDivisionAt s || dollarAt s

/-- End-of-region lookahead for the file-section pattern,
`(?=\w+\s+SECTION\.|$)`. -/
def lookaheadFs (s : List Char) : Bool :=
  wordSectionAt s || dollarAt s

/-- The lazy capture `(.*?)` before a lookahead: the shortest prefix whose
end satisfies `look` (the whole string if no position does, which cannot
happen for the two lookaheads above since `$` holds at the end). -/
def takeUntilLook (look : List Char → Bool) : Nat → List Char → List Char
  | 0, _ => []
  | _, [] => []
  | fuel + 1, c :: rest =>
    if look (c :: rest) then [] else c :: takeUntilLook look fuel rest

/-- Attempt for the header `WORKING-STORAGE\s+SECTION\.`, returning the text
after the header (out of which the lazy group is then captured). -/
def attemptWsHeader (s : List Char) : Option (List Char × List Char) :=
  if ("WORKING-STORAGE".data).isPrefixOf s then
    let afterKw := s.drop 15
    if (afterKw.takeWhile isPySpace).isEmpty then none
    else
      let afterWs := afterKw.dropWhile isPySpace
      if ("SECTION.".data).isPrefixOf afterWs then
        some (afterWs.drop 8, afterWs.drop 8)
      else none
  else none

/-- Attempt for the header `FILE\s+SECTION\.`, returning the text after the
header. -/
def attemptFsHeader (s : List Char) : Option (List Char × List Char) :=
  if ("FILE".data).isPrefixOf s then
    let afterKw := s.drop 4
    if (afterKw.takeWhile isPySpace).isEmpty then none
    else
      let afterWs := afterKw.dropWhile isPySpace
      if ("SECTION.".data).isPrefixOf afterWs then
        some (afterWs.drop 8, afterWs.drop 8)
      else none
  else none

/-- The captured group of
`re.search(r'WORKING-STORAGE\s+SECTION\.(.*?)(?=\w+\s+SECTION\.|PROCEDURE\s+DIVISION|$)', content, re.DOTALL)`. -/
def wsRegion (content : List Char) : Option (List Char) :=
  (searchCapture attemptWsHeader content).map (fun r => takeUntilLook lookaheadWs r.length r)

/-- The captured group of
`re.search(r'FILE\s+SECTION\.(.*?)(?=\w+\s+SECTION\.|$)', content, re.DOTALL)`. -/
def fsRegion (content : List Char) : Option (List Char) :=
  (searchCapture attemptFsHeader content).map (fun r => takeUntilLook lookaheadFs r.length r)

/-! ## Complexity estimator (`_estimate_complexity`, source lines 149-170) -/

/-- The decision keywords of source line 153. -/
def decision_keywords : List String :=
  ["IF", "WHEN", "PERFORM", "UNTIL", "WHILE"]

/-- `decision_count + data_count` of source lines 154-160: occurrences of the
decision keywords plus matches of `\d+\s+[A-Z0-9\-]+`. -/
def complexity_score (content : List Char) : Nat :=
  (decision_keywords.map (fun kw => countOccs kw.data content)).sum +
    (scanMatches attemptDataItem content).length

/-- Threshold classification of source lines 162-167. -/
def _estimate_complexity (content : List Char) : String :=
  if complexity_score content < 10 then "Low"
  else if complexity_score content < 50 then "Medium"
  else "High"

/-- `_estimate_complexity` with its `except` branch (source lines 169-170):
the oracle `failed` says whether the score computation raised. -/
def _estimate_complexity_run (content : List Char) (failed : Bool) : String :=
  if failed then "Unknown" else _estimate_complexity content

/-! ## The fact-set record produced by `parse_cobol_to_ast` -/

/-- An entry of `ast["procedures"]`: `{"name": proc, "type": "procedure", "calls": []}`. -/
structure ProcedureEntry where
  name : String
  type : String
  calls : List String
deriving DecidableEq

/-- An entry of `ast["working_storage"]`:
`{"level": level, "name": name, "type": "data_item"}`. -/
structure DataItemEntry where
  level : String
  name : String
  type : String
deriving DecidableEq

/-- An entry of `ast["file_section"]`: `{"name": fd, "type": "file_descriptor"}`. -/
structure FileDescEntry where
  name : String
  type : String
deriving DecidableEq

/-- `ast["metadata"]` (source lines 123-129). -/
structure MetadataEntry where
  has_file_section : Bool
  has_working_storage : Bool
  procedure_count : Nat
  dependency_count : Nat
  estimated_complexity : String
deriving DecidableEq

/-- The dictionary returned by `parse_cobol_to_ast`.  `program_id` and
`metadata` are keys of the success dictionary only, `error` is a key of the
exception dictionary only; absence is `none`. -/
structure FactSet where
  file_path : String
  file_name : String
  program_id : Option String
  procedures : List ProcedureEntry
  data_divisions : List String
  dependencies : List String
  copybooks : List String
  working_storage : List DataItemEntry
  file_section : List FileDescEntry
  line_count : Nat
  metadata : Option MetadataEntry
  error : Option String
deriving DecidableEq

/-- The keyword deny-list of source lines 71-75. -/
def cobol_keywords : List String :=
  ["IDENTIFICATION", "ENVIRONMENT", "DATA", "PROCEDURE",
   "WORKING-STORAGE", "FILE", "LINKAGE", "LOCAL-STORAGE",
   "CONFIGURATION", "INPUT-OUTPUT", "FILE-CONTROL"]

/-- `os.path.basename` on a POSIX path. -/
def pyBasename (path : String) : String :=
  ((splitOnChar '/' path.data).getLastD []).asString

/-- The include (COPY) references of the canonical text:
`re.findall(r'COPY\s+([A-Z0-9\-]+)', content)` (source line 83). -/
def includeReferences (content : List Char) : List String :=
  (scanMatches (attemptKwIdent "COPY".data) content).map List.asString

/-- The call references of the canonical text:
`re.findall(r'CALL\s+["\']([A-Z0-9\-]+)["\']', content)` (source line 88). -/
def callReferences (content : List Char) : List String :=
  (scanMatches attemptCall content).map List.asString

/-- The procedure names of the canonical text (source lines 58-68): union of
the three pattern scans; the Python `set` is modelled by `dedup`. -/
def procedureNames (content : List Char) : List String :=
  ((scanMatches attemptSection content ++ paragraphMatches content ++
      scanMatches (attemptKwIdent "PERFORM".data) content).map List.asString).dedup

/-- The `try` branch of `parse_cobol_to_ast` (source lines 23-132). -/
def parse_cobol_to_ast (file_content : String) (file_path : String) : FactSet :=
  let content := normalize file_content.data
  let copy_matches := includeReferences content
  let call_matches := callReferences content
  let dependencies := (copy_matches ++ call_matches).dedup
  let working_storage :=
    match wsRegion content with
    | none => []
    | some r => (scanMatches attemptDataItem r).map
        (fun dv => DataItemEntry.mk dv.1.asString dv.2.asString "data_item")
  let file_section :=
    match fsRegion content with
    | none => []
    | some r => (scanMatches (attemptKwIdent "FD".data) r).map
        (fun fd => FileDescEntry.mk fd.asString "file_descriptor")
  let procedures :=
    (procedureNames content).filter (fun p => decide (p ∉ cobol_keywords)) |>.map
      (fun p => ProcedureEntry.mk p "procedure" [])
  { file_path := file_path
    file_name := if file_path = "" then "unknown" else pyBasename file_path
    program_id := some (((searchCapture (attemptKwIdent "PROGRAM-ID.".data) content).map
      List.asString).getD "")
    procedures := procedures
    data_divisions := []
    dependencies := dependencies
    copybooks := copy_matches.dedup
    working_storage := working_storage
    file_section := file_section
    line_count := (splitOnChar '\n' file_content.data).length
    metadata := some
      { has_file_section := !file_section.isEmpty
        has_working_storage := !working_storage.isEmpty
        procedure_count := procedures.length
        dependency_count := dependencies.length
        estimated_complexity := _estimate_complexity content }
    error := none }

/-- The `except` branch of `parse_cobol_to_ast` (source lines 134-147): the
fallback dictionary carries empty structural fields, `line_count` 0 and the
exception description; it has no `program_id` and no `metadata` key. -/
def parse_error_result (file_path : String) (e : String) : FactSet :=
  { file_path := file_path
    file_name := if file_path = "" then "unknown" else pyBasename file_path
    program_id := none
    procedures := []
    data_divisions := []
    dependencies := []
    copybooks := []
    working_storage := []
    file_section := []
    line_count := 0
    metadata := none
    error := some e }

/-- `parse_cobol_to_ast` with its exception oracle: `some e` means the
extraction raised an exception described by `e`, `none` that it completed.
Either way a fact set is returned and nothing propagates. -/
def parse_cobol_to_ast_run (file_content : String) (file_path : String)
    (exc : Option String) : FactSet :=
  match exc with
  | none => parse_cobol_to_ast file_content file_path
  | some e => parse_error_result file_path e

/-! ## Dictionaries and Python `sorted`

A Python `dict` is an association list in key-insertion order.  `upsert`
models `d[k] = f(d[k]) if k in d else b`: an existing key keeps its position,
a new key is appended.  `setAssoc` models plain assignment `d[k] = v`.
`sortBy` models Python `sorted` with a comparator: `sorted` is a stable sort,
and a left-fold insertion sort placing each element after all elements it
does not strictly precede is the unique stable sort for a total preorder, so
the two agree. -/

def upsert {κ β : Type} [DecidableEq κ] (k : κ) (b : β) (f : β → β) :
    List (κ × β) → List (κ × β)
  | [] => [(k, b)]
  | (k0, v) :: rest => if k0 = k then (k0, f v) :: rest else (k0, v) :: upsert k b f rest

def setAssoc {κ β : Type} [DecidableEq κ] (k : κ) (v : β) :
    List (κ × β) → List (κ × β)
  | [] => [(k, v)]
  | (k0, v0) :: rest => if k0 = k then (k0, v) :: rest else (k0, v0) :: setAssoc k v rest

/-- Insert `a` after every element `b` of `l` with `le b a`. -/
def insertOrd {α : Type} (le : α → α → Bool) (a : α) : List α → List α
  | [] => [a]
  | b :: l => if le b a then b :: insertOrd le a l else a :: b :: l

/-- Stable sort by the comparator `le` (Python `sorted`). -/
def sortBy {α : Type} (le : α → α → Bool) (l : List α) : List α :=
  l.foldl (fun acc a => insertOrd le a acc) []

/-- Python string comparison (lexicographic on code points), as used by
`sorted` on dependency lists; kernel-evaluable, unlike the builtin `String`
order. -/
def lexLe : List Char → List Char → Bool
  | [], _ => true
  | _ :: _, [] => false
  | a :: as, b :: bs => if a < b then true else if a == b then lexLe as bs else false

def strLe (a b : String) : Bool :=
  lexLe a.data b.data

/-- The descending-by-count comparator of
`sorted(..., key=lambda x: x[1], reverse=True)`. -/
def cntDesc {κ : Type} (x y : κ × Nat) : Bool :=
  decide (y.2 ≤ x.2)

/-! ## The analytics service (`analytics_service.py`)

The service holds no cross-call state; each method reads the stored program
records through `get_all_programs()`, which becomes the `programs` argument.
A stored record carries the fields the analytics read:  `programId`,
`dependencies`, `complexity`, `lineCount` (in the source they are read with
`.get(...)` defaults; the record type makes them always present). -/

structure ProgramRecord where
  programId : String
  dependencies : List String
  complexity : String
  lineCount : Nat
deriving DecidableEq

/-- An edge of `relationship_details`:
`{"source": ..., "target": ..., "type": "depends_on"}`. -/
structure Rel where
  source : String
  target : String
  type : String
deriving DecidableEq

/-- The dictionary built by `analyze_program_relationships` on its non-empty
path (source lines 90-126). -/
structure RelationshipReport where
  total_relationships : Nat
  programs_with_dependencies : Nat
  isolated_programs : Nat
  most_depended_on_modules : List (String × Nat)
  dependency_graph : List (String × List String)
  relationship_details : List Rel
deriving DecidableEq

/-- A guard result: either the early `{"message": ...}` dictionary returned
when no programs are stored, or the real report. -/
inductive AnalysisResult (ρ : Type) where
  | noPrograms (message : String)
  | report (r : ρ)
deriving DecidableEq

/-- The edge list of source lines 93-104: for each program, one
`depends_on` edge per dependency, in order. -/
def relationshipEdges (programs : List ProgramRecord) : List Rel :=
  programs.flatMap (fun p => p.dependencies.map (fun d => Rel.mk p.programId d "depends_on"))

/-- The fan-in dictionary of source lines 112-115:
`dep_counts[target] = dep_counts.get(target, 0) + 1` over the edge list. -/
def depCounts (relationships : List Rel) : List (String × Nat) :=
  relationships.foldl (fun acc r => upsert r.target 1 (fun v => v + 1) acc) []

/-- The body of `analyze_program_relationships` (source lines 90-126). -/
def relationship_report (programs : List ProgramRecord) : RelationshipReport :=
  let relationships := relationshipEdges programs
  let programs_with_deps := (programs.filter (fun p => !p.dependencies.isEmpty)).length
  { total_relationships := relationships.length
    programs_with_dependencies := programs_with_deps
    isolated_programs := programs.length - programs_with_deps
    most_depended_on_modules := (sortBy cntDesc (depCounts relationships)).take 5
    dependency_graph := programs.foldl (fun acc p => setAssoc p.programId p.dependencies acc) []
    relationship_details := relationships }

/-- `AnalyticsService.analyze_program_relationships` (source lines 81-126),
with its empty guard of lines 86-87. -/
def analyze_program_relationships (programs : List ProgramRecord) :
    AnalysisResult RelationshipReport :=
  if programs.isEmpty then
    .noPrograms "No programs available for relationship analysis"
  else .report (relationship_report programs)

/-! ### Codebase overview (`generate_codebase_overview`, source lines 31-79) -/

/-- The four buckets of `_categorize_by_size` (source lines 331-352); the
fields stand for the keys `Small (< 100 lines)`, `Medium (100-500 lines)`,
`Large (500-1000 lines)`, `Very Large (> 1000 lines)`. -/
structure SizeCategories where
  small : Nat
  medium : Nat
  large : Nat
  very_large : Nat
deriving DecidableEq

/-- `AnalyticsService._categorize_by_size` (source lines 331-352). -/
def _categorize_by_size (programs : List ProgramRecord) : SizeCategories :=
  programs.foldl (fun c p =>
    if p.lineCount < 100 then { c with small := c.small + 1 }
    else if p.lineCount < 500 then { c with medium := c.medium + 1 }
    else if p.lineCount < 1000 then { c with large := c.large + 1 }
    else { c with very_large := c.very_large + 1 }) ⟨0, 0, 0, 0⟩

/-- The overview dictionary.  On the empty early return (source lines 36-40)
only `total_programs` and `message` are present; on the main path (lines
64-73) all statistics are present and `message` is absent. -/
structure Overview where
  total_programs : Nat
  message : Option String
  total_lines_of_code : Option Nat
  average_lines_per_program : Option Nat
  complexity_distribution : Option (List (String × Nat))
  total_unique_dependencies : Option Nat
  most_common_dependencies : Option (List (String × Nat))
  size_distribution : Option SizeCategories
deriving DecidableEq

/-- `AnalyticsService.generate_codebase_overview` (source lines 31-79).
`Counter.most_common(5)` is the stable descending-by-count sort truncated to
five entries.  The `generated_at` timestamp, a wall-clock boundary value, is
not modelled. -/
def generate_codebase_overview (programs : List ProgramRecord) : Overview :=
  if programs.isEmpty then
    { total_programs := 0
      message := some "No COBOL programs found. Please upload and process your files first."
      total_lines_of_code := none
      average_lines_per_program := none
      complexity_distribution := none
      total_unique_dependencies := none
      most_common_dependencies := none
      size_distribution := none }
  else
    let total_programs := programs.length
    let total_lines := (programs.map (fun p => p.lineCount)).sum
    let all_dependencies := programs.flatMap (fun p => p.dependencies)
    { total_programs := total_programs
      message := none
      total_lines_of_code := some total_lines
      average_lines_per_program :=
        some (if total_programs > 0 then total_lines / total_programs else 0)
      complexity_distribution :=
        some (programs.foldl (fun acc p => upsert p.complexity 1 (fun v => v + 1) acc) [])
      total_unique_dependencies := some all_dependencies.dedup.length
      most_common_dependencies :=
        some ((sortBy cntDesc
          (all_dependencies.foldl (fun acc d => upsert d 1 (fun v => v + 1) acc) [])).take 5)
      size_distribution := some (_categorize_by_size programs) }

/-! ### Refactoring opportunities (`identify_refactoring_opportunities`,
source lines 256-323) -/

structure HighComplexityEntry where
  program_id : String
  line_count : Nat
  complexity : String
deriving DecidableEq

structure LargeProgramEntry where
  program_id : String
  line_count : Nat
deriving DecidableEq

structure HighlyDependentEntry where
  program_id : String
  dependency_count : Nat
deriving DecidableEq

structure IsolatedEntry where
  program_id : String
  line_count : Nat
deriving DecidableEq

/-- An entry of `duplicate_dependencies`:
`{"pattern": list(pattern), "programs": programs_list}`. -/
structure DupEntry where
  pattern : List String
  programs : List String
deriving DecidableEq

structure Opportunities where
  high_complexity_programs : List HighComplexityEntry
  large_programs : List LargeProgramEntry
  highly_dependent_programs : List HighlyDependentEntry
  isolated_programs : List IsolatedEntry
  duplicate_dependencies : List DupEntry
deriving DecidableEq

/-- `tuple(sorted(program.get('dependencies', [])))` (source line 306). -/
def patKey (p : ProgramRecord) : List String :=
  sortBy strLe p.dependencies

/-- The `dependency_patterns` dictionary of source lines 304-310: programs
grouped by the sorted tuple of their dependencies, only tuples that are
non-empty and longer than one entering the grouping. -/
def patternFold (programs : List ProgramRecord) : List (List String × List String) :=
  programs.foldl (fun acc p =>
    if patKey p ≠ [] ∧ (patKey p).length > 1 then
      upsert (patKey p) [p.programId] (fun v => v ++ [p.programId]) acc
    else acc) []

/-- The body of `identify_refactoring_opportunities` (source lines 264-319);
the single pass appending to four lists is the corresponding four filters. -/
def refactoring_opportunities (programs : List ProgramRecord) : Opportunities :=
  { high_complexity_programs :=
      (programs.filter (fun p => p.complexity == "High")).map
        (fun p => HighComplexityEntry.mk p.programId p.lineCount p.complexity)
    large_programs :=
      (programs.filter (fun p => decide (p.lineCount > 1000))).map
        (fun p => LargeProgramEntry.mk p.programId p.lineCount)
    highly_dependent_programs :=
      (programs.filter (fun p => decide (p.dependencies.length > 10))).map
        (fun p => HighlyDependentEntry.mk p.programId p.dependencies.length)
    isolated_programs :=
      (programs.filter (fun p => p.dependencies.isEmpty)).map
        (fun p => IsolatedEntry.mk p.programId p.lineCount)
    duplicate_dependencies :=
      ((patternFold programs).filter (fun kv => decide (kv.2.length > 1))).map
        (fun kv => DupEntry.mk kv.1 kv.2) }

/-- `AnalyticsService.identify_refactoring_opportunities` (source lines
256-323), with its empty guard of lines 261-262. -/
def identify_refactoring_opportunities (programs : List ProgramRecord) :
    AnalysisResult Opportunities :=
  if programs.isEmpty then .noPrograms "No programs available for analysis"
  else .report (refactoring_opportunities programs)

/-! ## Helper lemmas -/

theorem splitOnChar_ne_nil (sep : Char) (l : List Char) : splitOnChar sep l ≠ [] := by
  cases l with
  | nil => simp [splitOnChar]
  | cons c rest =>
    simp only [splitOnChar]
    split
    · simp
    · cases h : splitOnChar sep rest <;> simp

theorem splitOnChar_length (sep : Char) (l : List Char) :
    (splitOnChar sep l).length = l.count sep + 1 := by
  induction l with
  | nil => simp [splitOnChar]
  | cons c rest ih =>
    simp only [splitOnChar, List.count_cons]
    by_cases h : c == sep
    · simp [h, ih]
    · simp only [h, if_neg]
      cases hs : splitOnChar sep rest with
      | nil => exact absurd hs (splitOnChar_ne_nil sep rest)
      | cons r rs =>
        simp only [hs] at ih
        simp only [List.length_cons] at ih ⊢
        simp [h, ih]

/-! ## Claim C1 -/

/-- Claim C1 (confirmed).  For every fact set produced by
`parse_cobol_to_ast`, the `dependencies` field is duplicate-free and equals,
as a set, the union of the COPY references and the CALL references extracted
from the same (normalized) text: no extra and no missing elements.  On
string input the extraction cannot raise, so every produced fact set comes
from the success branch. -/
theorem C1_dependencies_are_dedup_union (file_content file_path : String) :
    (parse_cobol_to_ast file_content file_path).dependencies.Nodup ∧
      ∀ d : String,
        d ∈ (parse_cobol_to_ast file_content file_path).dependencies ↔
          d ∈ includeReferences (normalize file_content.data) ∨
            d ∈ callReferences (normalize file_content.data) := by
  constructor
  · simp only [parse_cobol_to_ast]
    exact List.nodup_dedup _
  · intro d
    simp only [parse_cobol_to_ast]
    rw [List.mem_dedup, List.mem_append]

/-! ## Claim C2 -/

/-- Scenario A input in the fixed COBOL column format: each line carries a
six-character sequence-number prefix, which the normalizer removes. -/
def payrollFixedFormat : String :=
  "      PROGRAM-ID. PAYROLL.\n      COPY CUSTREC.\n      CALL \"VALIDATE\"."

/-- Scenario A input with the three lines starting at column 0, as the claim
literally allows ("any input text containing the lines"). -/
def payrollUnprefixed : String :=
  "PROGRAM-ID. PAYROLL.\nCOPY CUSTREC.\nCALL \"VALIDATE\"."

/-- Claim C2 (corrected), counterexample.  On the input text that contains
exactly the three claimed lines at column 0, the normalizer cuts the first
six characters of each line (all three are longer than six characters), so
the `PROGRAM-ID`, `COPY` and `CALL` patterns no longer match: the identity
is the empty string, not `PAYROLL`, and the dependency set is empty. -/
theorem C2_counterexample_unprefixed_lines :
    (parse_cobol_to_ast payrollUnprefixed "").program_id ≠ some "PAYROLL" ∧
      (parse_cobol_to_ast payrollUnprefixed "").program_id = some "" ∧
      (parse_cobol_to_ast payrollUnprefixed "").dependencies = [] := by
  refine ⟨?_, ?_, ?_⟩ <;> decide

/-- Claim C2 as amended: when the three lines carry a six-character column
prefix (fixed-format COBOL, the format the six-character cut is written
for), the parser recovers the declared identity `PAYROLL` exactly and the
dependency set is exactly `{CUSTREC, VALIDATE}`. -/
theorem C2_fixed_format_payroll :
    (parse_cobol_to_ast payrollFixedFormat "").program_id = some "PAYROLL" ∧
      (parse_cobol_to_ast payrollFixedFormat "").dependencies.Nodup ∧
      (parse_cobol_to_ast payrollFixedFormat "").dependencies.toFinset =
        {"CUSTREC", "VALIDATE"} := by
  refine ⟨?_, ?_, ?_⟩ <;> decide

/-! ## Claim C3 -/

/-- Claim C3 (corrected), counterexample.  The exception dictionary of
source lines 136-147 has no `program_id` key at all, so the fact set
produced on an extraction error does not carry the identity field at its
zero-value default (the empty string): the claim fails for the identity
field. -/
theorem C3_counterexample_missing_identity_key :
    (parse_error_result "f.cbl" "boom").program_id = none ∧
      (parse_error_result "f.cbl" "boom").program_id ≠ some "" := by
  exact ⟨rfl, by simp [parse_error_result]⟩

/-- Claim C3 as amended: whenever the extraction raises, a fact set is
returned (never a propagated exception) carrying the structural fields
`procedures`, `data_divisions`, `dependencies`, `copybooks`,
`working_storage` and `file_section` empty, `line_count` 0, and an explicit
error marker with the exception description - but the `program_id` and
`metadata` keys are omitted entirely rather than set to their defaults. -/
theorem C3_error_factset_fields (file_content file_path e : String) :
    parse_cobol_to_ast_run file_content file_path (some e) =
        parse_error_result file_path e ∧
      (parse_error_result file_path e).procedures = [] ∧
      (parse_error_result file_path e).data_divisions = [] ∧
      (parse_error_result file_path e).dependencies = [] ∧
      (parse_error_result file_path e).copybooks = [] ∧
      (parse_error_result file_path e).working_storage = [] ∧
      (parse_error_result file_path e).file_section = [] ∧
      (parse_error_result file_path e).line_count = 0 ∧
      (parse_error_result file_path e).error = some e ∧
      (parse_error_result file_path e).program_id = none ∧
      (parse_error_result file_path e).metadata = none := by
  exact ⟨rfl, rfl, rfl, rfl, rfl, rfl, rfl, rfl, rfl, rfl, rfl⟩

/-! ## Claim C4 -/

/-- Claim C4 (corrected), counterexample.  With zero stored programs,
`generate_codebase_overview` takes the early return of source lines 36-40,
whose dictionary has no `average_lines_per_program` key at all - in
particular the field is not 0. -/
theorem C4_counterexample_empty_average_absent :
    (generate_codebase_overview []).average_lines_per_program = none ∧
      (generate_codebase_overview []).average_lines_per_program ≠ some 0 := by
  refine ⟨rfl, by simp [generate_codebase_overview]⟩

/-- Claim C4 as amended: with zero stored programs the overview is the early
`total_programs = 0` message dictionary, which omits the average field
entirely (so no division is ever attempted and nothing is raised); for a
non-empty set the average is the integer floor division of the total line
count by the program count. -/
theorem C4_average_guarded_floor_division (programs : List ProgramRecord) :
    (generate_codebase_overview programs).average_lines_per_program =
        (if programs.isEmpty then none
         else some ((programs.map (fun p => p.lineCount)).sum / programs.length)) ∧
      (generate_codebase_overview []).total_programs = 0 ∧
      (generate_codebase_overview []).message =
        some "No COBOL programs found. Please upload and process your files first." := by
  refine ⟨?_, rfl, rfl⟩
  by_cases h : programs.isEmpty
  · simp [generate_codebase_overview, h]
  · have hpos : 0 < programs.length := by
      cases programs with
      | nil => simp at h
      | cons p l => simp
    simp [generate_codebase_overview, h, hpos]

/-! ## Claim C6 -/

/-- A text scoring exactly 50: fifty occurrences of the decision keyword
`IF`. -/
def fiftyIfs : List Char :=
  (List.replicate 50 "IF".data).flatten

/-- Claim C6 (confirmed).  The estimate is `Low` for a score below 10,
`Medium` below 50, `High` otherwise, and `Unknown` exactly when the score
computation fails - an answer is always returned.  In particular the empty
text (0 keyword occurrences, 0 declaration tokens) scores 0 and is `Low`,
and a text with fifty keyword occurrences scores 50 and is `High`. -/
theorem C6_complexity_thresholds :
    (∀ (content : List Char) (failed : Bool),
        _estimate_complexity_run content failed =
          if failed then "Unknown"
          else if complexity_score content < 10 then "Low"
          else if complexity_score content < 50 then "Medium"
          else "High") ∧
      complexity_score [] = 0 ∧
      _estimate_complexity [] = "Low" ∧
      50 ≤ complexity_score fiftyIfs ∧
      _estimate_complexity fiftyIfs = "High" := by
  refine ⟨fun content failed => rfl, ?_, ?_, ?_, ?_⟩ <;> decide

/-! ## Claim C9 -/

/-- Claim C9 (confirmed).  On the success branch `line_count` is the number
of newline-separated lines of the raw input (`len(file_content.split('\n'))`),
which is the newline count plus one and hence at least 1, even for the empty
string; only the error branch sets `line_count` to 0. -/
theorem C9_line_count_success_and_error (file_content file_path : String) :
    (parse_cobol_to_ast file_content file_path).line_count =
        file_content.data.count '\n' + 1 ∧
      1 ≤ (parse_cobol_to_ast file_content file_path).line_count ∧
      ∀ fp e : String, (parse_error_result fp e).line_count = 0 := by
  have h : (parse_cobol_to_ast file_content file_path).line_count =
      (splitOnChar '\n' file_content.data).length := rfl
  rw [h, splitOnChar_length]
  exact ⟨rfl, by omega, fun fp e => rfl⟩

/-! ## Claim C8 -/

/-- The four size-bucket counts of the fold, for an arbitrary starting
accumulator. -/
theorem categorize_fold_counts (l : List ProgramRecord) :
    ∀ c : SizeCategories,
      (l.foldl (fun c p =>
        if p.lineCount < 100 then { c with small := c.small + 1 }
        else if p.lineCount < 500 then { c with medium := c.medium + 1 }
        else if p.lineCount < 1000 then { c with large := c.large + 1 }
        else { c with very_large := c.very_large + 1 }) c).small =
          c.small + l.countP (fun p => decide (p.lineCount < 100)) ∧
      (l.foldl (fun c p =>
        if p.lineCount < 100 then { c with small := c.small + 1 }
        else if p.lineCount < 500 then { c with medium := c.medium + 1 }
        else if p.lineCount < 1000 then { c with large := c.large + 1 }
        else { c with very_large := c.very_large + 1 }) c).medium =
          c.medium + l.countP (fun p => decide (100 ≤ p.lineCount ∧ p.lineCount < 500)) ∧
      (l.foldl (fun c p =>
        if p.lineCount < 100 then { c with small := c.small + 1 }
        else if p.lineCount < 500 then { c with medium := c.medium + 1 }
        else if p.lineCount < 1000 then { c with large := c.large + 1 }
        else { c with very_large := c.very_large + 1 }) c).large =
          c.large + l.countP (fun p => decide (500 ≤ p.lineCount ∧ p.lineCount < 1000)) ∧
      (l.foldl (fun c p =>
        if p.lineCount < 100 then { c with small := c.small + 1 }
        else if p.lineCount < 500 then { c with medium := c.medium + 1 }
        else if p.lineCount < 1000 then { c with large := c.large + 1 }
        else { c with very_large := c.very_large + 1 }) c).very_large =
          c.very_large + l.countP (fun p => decide (1000 ≤ p.lineCount)) := by
  induction l with
  | nil => intro c; simp
  | cons p l ih =>
    intro c
    simp only [List.foldl_cons, List.countP_cons]
    rcases Nat.lt_or_ge p.lineCount 100 with h1 | h1
    · have := ih { c with small := c.small + 1 }
      simp only [if_pos h1] at *
      refine ⟨?_, ?_, ?_, ?_⟩ <;> simp [this.1, this.2.1, this.2.2.1, this.2.2.2, h1] <;> omega
    · rcases Nat.lt_or_ge p.lineCount 500 with h2 | h2
      · have := ih { c with medium := c.medium + 1 }
        simp only [if_neg (by omega : ¬ p.lineCount < 100), if_pos h2] at *
        refine ⟨?_, ?_, ?_, ?_⟩ <;>
          simp [this.1, this.2.1, this.2.2.1, this.2.2.2, h1, h2] <;> omega
      · rcases Nat.lt_or_ge p.lineCount 1000 with h3 | h3
        · have := ih { c with large := c.large + 1 }
          simp only [if_neg (by omega : ¬ p.lineCount < 100),
            if_neg (by omega : ¬ p.lineCount < 500), if_pos h3] at *
          refine ⟨?_, ?_, ?_, ?_⟩ <;>
            simp [this.1, this.2.1, this.2.2.1, this.2.2.2, h1, h2, h3] <;> omega
        · have := ih { c with very_large := c.very_large + 1 }
          simp only [if_neg (by omega : ¬ p.lineCount < 100),
            if_neg (by omega : ¬ p.lineCount < 500),
            if_neg (by omega : ¬ p.lineCount < 1000)] at *
          refine ⟨?_, ?_, ?_, ?_⟩ <;>
            simp [this.1, this.2.1, this.2.2.1, this.2.2.2, h1, h2, h3] <;> omega

/-- The four range predicates partition the naturals. -/
theorem sizeRange_partition (l : List ProgramRecord) :
    l.countP (fun p => decide (p.lineCount < 100)) +
        l.countP (fun p => decide (100 ≤ p.lineCount ∧ p.lineCount < 500)) +
        l.countP (fun p => decide (500 ≤ p.lineCount ∧ p.lineCount < 1000)) +
        l.countP (fun p => decide (1000 ≤ p.lineCount)) = l.length := by
  induction l with
  | nil => simp
  | cons p l ih =>
    simp only [List.countP_cons, List.length_cons, Bool.decide_and] at ih ⊢
    split_ifs <;> simp_all <;> omega

/-- Claim C8 (confirmed).  The size categorization counts every program in
exactly one of the four buckets `< 100`, `100-499`, `500-999`, `>= 1000`
(the exact, disjoint, exhaustive ranges below), so the four bucket counts
always sum to the number of programs. -/
theorem C8_size_partition (programs : List ProgramRecord) :
    (_categorize_by_size programs).small =
        programs.countP (fun p => decide (p.lineCount < 100)) ∧
      (_categorize_by_size programs).medium =
        programs.countP (fun p => decide (100 ≤ p.lineCount ∧ p.lineCount < 500)) ∧
      (_categorize_by_size programs).large =
        programs.countP (fun p => decide (500 ≤ p.lineCount ∧ p.lineCount < 1000)) ∧
      (_categorize_by_size programs).very_large =
        programs.countP (fun p => decide (1000 ≤ p.lineCount)) ∧
      (_categorize_by_size programs).small + (_categorize_by_size programs).medium +
          (_categorize_by_size programs).large + (_categorize_by_size programs).very_large =
        programs.length := by
  have h := categorize_fold_counts programs ⟨0, 0, 0, 0⟩
  have h1 : (_categorize_by_size programs).small =
      programs.countP (fun p => decide (p.lineCount < 100)) := by
    simpa [_categorize_by_size] using h.1
  have h2 : (_categorize_by_size programs).medium =
      programs.countP (fun p => decide (100 ≤ p.lineCount ∧ p.lineCount < 500)) := by
    simpa [_categorize_by_size] using h.2.1
  have h3 : (_categorize_by_size programs).large =
      programs.countP (fun p => decide (500 ≤ p.lineCount ∧ p.lineCount < 1000)) := by
    simpa [_categorize_by_size] using h.2.2.1
  have h4 : (_categorize_by_size programs).very_large =
      programs.countP (fun p => decide (1000 ≤ p.lineCount)) := by
    simpa [_categorize_by_size] using h.2.2.2
  refine ⟨h1, h2, h3, h4, ?_⟩
  rw [h1, h2, h3, h4]
  exact sizeRange_partition programs

/-! ## Claim C10 -/

/-- Complementary counts over a boolean predicate. -/
theorem countP_not_add (l : List ProgramRecord) (p : ProgramRecord → Bool) :
    l.countP p + l.countP (fun x => !p x) = l.length := by
  induction l with
  | nil => simp
  | cons x l ih =>
    simp only [List.countP_cons, List.length_cons]
    cases h : p x <;> simp [h] <;> omega

/-- Claim C10 (confirmed).  The relationship analysis reports
`total_relationships` as the sum over all programs of the length of that
program's dependency list (duplicate edges included), and
`isolated_programs` as the total program count minus the count of programs
with a non-empty dependency list - equivalently, the count of programs with
an empty dependency list. -/
theorem C10_relationship_totals (programs : List ProgramRecord) :
    (relationship_report programs).total_relationships =
        (programs.map (fun p => p.dependencies.length)).sum ∧
      (relationship_report programs).programs_with_dependencies =
        programs.countP (fun p => !p.dependencies.isEmpty) ∧
      (relationship_report programs).isolated_programs =
        programs.length - programs.countP (fun p => !p.dependencies.isEmpty) ∧
      (relationship_report programs).isolated_programs =
        programs.countP (fun p => p.dependencies.isEmpty) := by
  have htot : (relationship_report programs).total_relationships =
      (programs.map (fun p => p.dependencies.length)).sum := by
    show (relationshipEdges programs).length = _
    rw [relationshipEdges, List.length_flatMap]
    congr 1
    simp [Function.comp]
  have hdeps : (relationship_report programs).programs_with_dependencies =
      programs.countP (fun p => !p.dependencies.isEmpty) := by
    show (programs.filter (fun p => !p.dependencies.isEmpty)).length = _
    rw [List.countP_eq_length_filter]
  have hiso : (relationship_report programs).isolated_programs =
      programs.length - programs.countP (fun p => !p.dependencies.isEmpty) := by
    show programs.length - (programs.filter (fun p => !p.dependencies.isEmpty)).length = _
    rw [List.countP_eq_length_filter]
  refine ⟨htot, hdeps, hiso, ?_⟩
  rw [hiso]
  have h := countP_not_add programs (fun p => !p.dependencies.isEmpty)
  simp only [Bool.not_not] at h
  omega

/-! ## Characterization of dictionary-building folds

`analyze_program_relationships` and `identify_refactoring_opportunities`
each build a `dict` by a chain of `upsert`s.  The lemmas below characterize
such a fold: the resulting association list carries one entry per distinct
key, in first-seen order, whose value is the fold of `push` over the
elements with that key. -/

/-- The keys of an association list, in order. -/
def keysOf {κ β : Type} (acc : List (κ × β)) : List κ :=
  acc.map Prod.fst

/-- What a fold of upserts appends after an accumulator with key set `seen`:
one entry per first occurrence of a new key, holding the `push`-fold of the
base value of its first witness over the remaining elements with that key. -/
def tailGroups {α κ β : Type} [DecidableEq κ] (key : α → κ) (base : α → β)
    (push : α → β → β) (seen : List κ) : List α → List (κ × β)
  | [] => []
  | a :: rest =>
    if key a ∈ seen then tailGroups key base push seen rest
    else (key a,
        (rest.filter (fun x => decide (key x = key a))).foldl (fun v x => push x v) (base a)) ::
      tailGroups key base push (key a :: seen) rest

theorem mem_keysOf_cons {κ β : Type} (k : κ) (kv : κ × β) (rest : List (κ × β)) :
    k ∈ keysOf (kv :: rest) ↔ k = kv.1 ∨ k ∈ keysOf rest := by
  simp [keysOf]

theorem upsert_of_not_mem {κ β : Type} [DecidableEq κ] (k : κ) (b : β) (f : β → β)
    (acc : List (κ × β)) (h : k ∉ keysOf acc) : upsert k b f acc = acc ++ [(k, b)] := by
  induction acc with
  | nil => rfl
  | cons kv rest ih =>
    obtain ⟨k0, v⟩ := kv
    have hk : k0 ≠ k := fun he => h ((mem_keysOf_cons k (k0, v) rest).mpr (Or.inl he.symm))
    have hrest : k ∉ keysOf rest :=
      fun hmem => h ((mem_keysOf_cons k (k0, v) rest).mpr (Or.inr hmem))
    simp only [upsert, if_neg hk, List.cons_append]
    rw [ih hrest]

theorem keysOf_upsert {κ β : Type} [DecidableEq κ] (k : κ) (b : β) (f : β → β)
    (acc : List (κ × β)) :
    keysOf (upsert k b f acc) =
      if k ∈ keysOf acc then keysOf acc else keysOf acc ++ [k] := by
  induction acc with
  | nil => simp [upsert, keysOf]
  | cons kv rest ih =>
    obtain ⟨k0, v⟩ := kv
    by_cases hk : k0 = k
    · subst hk
      simp [upsert, keysOf]
    · simp only [upsert, if_neg hk, keysOf, List.map_cons] at ih ⊢
      rw [ih]
      by_cases hmem : k ∈ rest.map Prod.fst
      · rw [if_pos hmem, if_pos (by simp [hmem])]
      · rw [if_neg hmem,
          if_neg (by simp only [List.mem_cons, hmem, or_false]; exact fun h => hk h.symm)]
        simp

theorem tailGroups_congr_seen {α κ β : Type} [DecidableEq κ] (key : α → κ)
    (base : α → β) (push : α → β → β) :
    ∀ (l : List α) (s1 s2 : List κ), (∀ x, x ∈ s1 ↔ x ∈ s2) →
      tailGroups key base push s1 l = tailGroups key base push s2 l
  | [], _, _, _ => rfl
  | a :: rest, s1, s2, h => by
    by_cases hm : key a ∈ s1
    · rw [tailGroups, tailGroups, if_pos hm, if_pos ((h (key a)).1 hm)]
      exact tailGroups_congr_seen key base push rest s1 s2 h
    · rw [tailGroups, tailGroups, if_neg hm, if_neg (fun hx => hm ((h (key a)).2 hx))]
      congr 1
      exact tailGroups_congr_seen key base push rest (key a :: s1) (key a :: s2)
        (fun x => by simp [h x])

/-- Mapping a value transformer over an upsert on a present key: the single
entry with that key absorbs the update `f`, every other entry is untouched. -/
theorem upsert_map_bump {κ β : Type} [DecidableEq κ] (k : κ) (b : β) (f : β → β)
    (F G : κ → β → β) (acc : List (κ × β)) (hmem : k ∈ keysOf acc)
    (hnd : (keysOf acc).Nodup)
    (hne : ∀ k0 v, k0 ≠ k → G k0 v = F k0 v) (heq : ∀ v, G k v = F k (f v)) :
    (upsert k b f acc).map (fun kv => (kv.1, F kv.1 kv.2)) =
      acc.map (fun kv => (kv.1, G kv.1 kv.2)) := by
  induction acc with
  | nil => simp [keysOf] at hmem
  | cons kv rest ih =>
    obtain ⟨k0, v⟩ := kv
    have hnd0 : k0 ∉ keysOf rest := by
      simp only [keysOf, List.map_cons, List.nodup_cons] at hnd
      exact hnd.1
    have hndr : (keysOf rest).Nodup := by
      simp only [keysOf, List.map_cons, List.nodup_cons] at hnd
      exact hnd.2
    by_cases hk : k0 = k
    · subst hk
      have hup : upsert k0 b f ((k0, v) :: rest) = (k0, f v) :: rest := by simp [upsert]
      rw [hup, List.map_cons, List.map_cons]
      congr 1
      · rw [heq v]
      · apply List.map_congr_left
        intro x hx
        have hxk : x.1 ≠ k0 := by
          intro he
          exact hnd0 (he ▸ List.mem_map_of_mem Prod.fst hx)
        rw [hne x.1 x.2 hxk]
    · have hmem' : k ∈ keysOf rest := by
        rcases (mem_keysOf_cons k (k0, v) rest).mp hmem with h | h
        · exact absurd h.symm hk
        · exact h
      simp only [upsert, if_neg hk, List.map_cons]
      congr 1
      · rw [hne k0 v hk]
      · exact ih hmem' hndr

/-- The characterization of a fold of upserts: starting from an accumulator
with duplicate-free keys, every existing entry absorbs the pushes of the
elements with its key, and the new keys are appended in first-seen order
with their grouped values. -/
theorem foldl_upsert_eq {α κ β : Type} [DecidableEq κ] (key : α → κ) (base : α → β)
    (push : α → β → β) (l : List α) :
    ∀ acc : List (κ × β), (keysOf acc).Nodup →
      l.foldl (fun acc a => upsert (key a) (base a) (push a) acc) acc =
        acc.map (fun kv =>
          (kv.1, (l.filter (fun x => decide (key x = kv.1))).foldl
            (fun v x => push x v) kv.2)) ++
          tailGroups key base push (keysOf acc) l := by
  induction l with
  | nil =>
    intro acc _
    simp [tailGroups]
  | cons a l ih =>
    intro acc hnd
    simp only [List.foldl_cons]
    by_cases hm : key a ∈ keysOf acc
    · have hkeys : keysOf (upsert (key a) (base a) (push a) acc) = keysOf acc := by
        rw [keysOf_upsert, if_pos hm]
      rw [ih _ (by rw [hkeys]; exact hnd), hkeys]
      have htail : tailGroups key base push (keysOf acc) (a :: l) =
          tailGroups key base push (keysOf acc) l := by
        rw [tailGroups, if_pos hm]
      rw [htail]
      congr 1
      apply upsert_map_bump (key a) (base a) (push a)
        (fun k0 v => (l.filter (fun x => decide (key x = k0))).foldl
          (fun v x => push x v) v)
        (fun k0 v => ((a :: l).filter (fun x => decide (key x = k0))).foldl
          (fun v x => push x v) v)
        acc hm hnd
      · intro k0 v hk0
        have hne0 : ¬ (key a = k0) := fun he => hk0 he.symm
        simp [List.filter_cons, hne0]
      · intro v
        simp [List.filter_cons]
    · rw [upsert_of_not_mem _ _ _ _ hm]
      have hkeys : keysOf (acc ++ [(key a, base a)]) = keysOf acc ++ [key a] := by
        simp [keysOf]
      have hnd' : (keysOf (acc ++ [(key a, base a)])).Nodup := by
        rw [hkeys]
        rw [List.nodup_append]
        refine ⟨hnd, by simp, ?_⟩
        intro x hx hxmem
        have hx1 : x = key a := by simpa using hxmem
        exact hm (hx1 ▸ hx)
      rw [ih _ hnd', hkeys]
      have htail : tailGroups key base push (keysOf acc ++ [key a]) l =
          tailGroups key base push (key a :: keysOf acc) l := by
        apply tailGroups_congr_seen
        intro x
        simp [or_comm]
      rw [htail]
      have hrhs : tailGroups key base push (keysOf acc) (a :: l) =
          (key a, (l.filter (fun x => decide (key x = key a))).foldl
            (fun v x => push x v) (base a)) ::
            tailGroups key base push (key a :: keysOf acc) l := by
        rw [tailGroups, if_neg hm]
      rw [hrhs, List.map_append]
      have hmap : acc.map (fun kv =>
            (kv.1, (l.filter (fun x => decide (key x = kv.1))).foldl
              (fun v x => push x v) kv.2)) =
          acc.map (fun kv =>
            (kv.1, ((a :: l).filter (fun x => decide (key x = kv.1))).foldl
              (fun v x => push x v) kv.2)) := by
        apply List.map_congr_left
        intro kv hkv
        have hxk : key a ≠ kv.1 := by
          intro he
          apply hm
          rw [he]
          exact List.mem_map_of_mem Prod.fst hkv
        have hne0 : ¬ (key a = kv.1) := hxk
        simp [List.filter_cons, hne0]
      rw [hmap]
      simp

/-! ## First-seen order and fan-in counts (claim C7) -/

/-- The distinct elements of a list in order of first occurrence, those of
`seen` excluded. -/
def firstSeen (seen : List String) : List String → List String
  | [] => []
  | t :: rest =>
    if t ∈ seen then firstSeen seen rest else t :: firstSeen (t :: seen) rest

theorem mem_firstSeen_not_seen :
    ∀ (l seen : List String) (u : String), u ∈ firstSeen seen l → u ∉ seen
  | [], _, _, h => by simp [firstSeen] at h
  | t :: rest, seen, u, h => by
    by_cases hm : t ∈ seen
    · rw [firstSeen, if_pos hm] at h
      exact mem_firstSeen_not_seen rest seen u h
    · rw [firstSeen, if_neg hm] at h
      rcases List.mem_cons.mp h with he | hrest
      · exact he ▸ hm
      · intro hu
        exact mem_firstSeen_not_seen rest (t :: seen) u hrest (List.mem_cons_of_mem t hu)

theorem foldl_const_succ {α : Type} (xs : List α) (n : Nat) :
    xs.foldl (fun v _ => v + 1) n = n + xs.length := by
  induction xs generalizing n with
  | nil => simp
  | cons x xs ih => simp [ih]; omega

/-- The counts instance of `tailGroups`: one entry per distinct edge target
in first-seen order, valued by the number of edges pointing at it. -/
theorem tailGroups_counts (l : List Rel) :
    ∀ seen : List String,
      tailGroups (fun r => r.target) (fun _ => (1 : Nat)) (fun _ v => v + 1) seen l =
        (firstSeen seen (l.map (fun r => r.target))).map
          (fun t => (t, l.countP (fun r => decide (r.target = t)))) := by
  induction l with
  | nil => intro seen; simp [tailGroups, firstSeen]
  | cons r rest ih =>
    intro seen
    simp only [List.map_cons]
    by_cases hm : r.target ∈ seen
    · rw [tailGroups, if_pos hm, firstSeen, if_pos hm, ih seen]
      apply List.map_congr_left
      intro t ht
      have htne : r.target ≠ t := by
        intro he
        exact mem_firstSeen_not_seen _ seen t ht (he ▸ hm)
      rw [List.countP_cons]
      simp [htne]
    · rw [tailGroups, if_neg hm, firstSeen, if_neg hm, ih (r.target :: seen), List.map_cons]
      congr 1
      · have hlen : (List.filter (fun x => decide (x.target = r.target)) rest).length =
            rest.countP (fun x => decide (x.target = r.target)) :=
          (List.countP_eq_length_filter _ _).symm
        rw [foldl_const_succ, hlen, List.countP_cons]
        simp [Nat.add_comm]
      · apply List.map_congr_left
        intro t ht
        have htne : r.target ≠ t := by
          intro he
          exact mem_firstSeen_not_seen _ (r.target :: seen) t ht (he ▸ List.mem_cons_self _ _)
        rw [List.countP_cons]
        simp [htne]

/-- `depCounts` equals the first-seen fan-in association list. -/
theorem depCounts_eq_firstSeen (relationships : List Rel) :
    depCounts relationships =
      (firstSeen [] (relationships.map (fun r => r.target))).map
        (fun t => (t, relationships.countP (fun r => decide (r.target = t)))) := by
  have h := foldl_upsert_eq (fun r : Rel => r.target) (fun _ => (1 : Nat))
    (fun _ v => v + 1) relationships [] (by simp [keysOf])
  have h2 := tailGroups_counts relationships []
  exact h.trans (by simpa using h2)

/-! ## Stable insertion sort lemmas -/

theorem mem_insertOrd {α : Type} (le : α → α → Bool) (a : α) :
    ∀ (l : List α) (x : α), x ∈ insertOrd le a l ↔ x = a ∨ x ∈ l
  | [], x => by simp [insertOrd]
  | b :: l, x => by
    rw [insertOrd]
    by_cases hba : le b a
    · simp only [if_pos hba, List.mem_cons, mem_insertOrd le a l x]
      tauto
    · rw [if_neg hba]
      simp [List.mem_cons]

theorem pairwise_insertOrd {α : Type} (le : α → α → Bool)
    (htot : ∀ a b, le a b || le b a) (htrans : ∀ a b c, le a b → le b c → le a c)
    (a : α) :
    ∀ l : List α, l.Pairwise (fun x y => le x y = true) →
      (insertOrd le a l).Pairwise (fun x y => le x y = true)
  | [], _ => by simp [insertOrd]
  | b :: l, h => by
    rw [List.pairwise_cons] at h
    obtain ⟨hb, hl⟩ := h
    rw [insertOrd]
    by_cases hba : le b a
    · rw [if_pos hba, List.pairwise_cons]
      refine ⟨?_, pairwise_insertOrd le htot htrans a l hl⟩
      intro x hx
      rcases (mem_insertOrd le a l x).mp hx with he | hmem
      · exact he ▸ hba
      · exact hb x hmem
    · rw [if_neg hba, List.pairwise_cons]
      have hab : le a b := by
        rcases Bool.or_eq_true_iff.mp (htot a b) with h | h
        · exact h
        · exact absurd h hba
      refine ⟨?_, List.pairwise_cons.mpr ⟨hb, hl⟩⟩
      intro x hx
      rcases List.mem_cons.mp hx with he | hmem
      · exact he ▸ hab
      · exact htrans a b x hab (hb x hmem)

theorem pairwise_sortBy {α : Type} (le : α → α → Bool)
    (htot : ∀ a b, le a b || le b a) (htrans : ∀ a b c, le a b → le b c → le a c)
    (l : List α) : (sortBy le l).Pairwise (fun x y => le x y = true) := by
  rw [sortBy]
  have haux : ∀ (l acc : List α), acc.Pairwise (fun x y => le x y = true) →
      (l.foldl (fun acc a => insertOrd le a acc) acc).Pairwise
        (fun x y => le x y = true) := by
    intro l
    induction l with
    | nil => intro acc h; exact h
    | cons a l ih =>
      intro acc h
      exact ih _ (pairwise_insertOrd le htot htrans a acc h)
  exact haux l [] (by simp)

/-! ## Claim C7 -/

/-- Claim C7 (confirmed).  The most-depended-on ranking counts, for each
target identity, the number of `depends_on` edges pointing at it, lists the
targets in the order they are first seen in the edge list, sorts stably in
descending order of count (so ties keep first-seen order), and keeps at most
the top five entries. -/
theorem C7_fan_in_ranking (programs : List ProgramRecord) :
    (relationship_report programs).most_depended_on_modules =
        (sortBy cntDesc
          ((firstSeen [] ((relationshipEdges programs).map (fun r => r.target))).map
            (fun t => (t, (relationshipEdges programs).countP
              (fun r => decide (r.target = t)))))).take 5 ∧
      (relationship_report programs).most_depended_on_modules.length ≤ 5 ∧
      (relationship_report programs).most_depended_on_modules.Pairwise
        (fun x y => y.2 ≤ x.2) := by
  have hdef : (relationship_report programs).most_depended_on_modules =
      (sortBy cntDesc (depCounts (relationshipEdges programs))).take 5 := rfl
  have heq : (relationship_report programs).most_depended_on_modules =
      (sortBy cntDesc
        ((firstSeen [] ((relationshipEdges programs).map (fun r => r.target))).map
          (fun t => (t, (relationshipEdges programs).countP
            (fun r => decide (r.target = t)))))).take 5 := by
    rw [hdef, depCounts_eq_firstSeen]
  refine ⟨heq, ?_, ?_⟩
  · rw [hdef, List.length_take]
    exact min_le_left 5 _
  · rw [hdef]
    have hsorted := pairwise_sortBy cntDesc
      (fun a b => by
        simp only [cntDesc, Bool.or_eq_true, decide_eq_true_eq]
        omega)
      (fun a b c hab hbc => by
        simp only [cntDesc, decide_eq_true_eq] at hab hbc ⊢
        omega)
      (depCounts (relationshipEdges programs))
    have hconv : (sortBy cntDesc (depCounts (relationshipEdges programs))).Pairwise
        (fun x y : String × Nat => y.2 ≤ x.2) := by
      apply List.Pairwise.imp ?_ hsorted
      intro a b h
      simpa [cntDesc] using h
    exact hconv.sublist (List.take_sublist 5 _)

/-! ## Membership characterization of grouped folds (claim C5) -/

theorem mem_tailGroups_iff {α κ β : Type} [DecidableEq κ] (key : α → κ) (base : α → β)
    (push : α → β → β) :
    ∀ (l : List α) (seen : List κ) (k : κ) (v : β),
      (k, v) ∈ tailGroups key base push seen l ↔
        (k ∉ seen ∧ ∃ x xs, l.filter (fun y => decide (key y = k)) = x :: xs ∧
          v = xs.foldl (fun v y => push y v) (base x))
  | [], seen, k, v => by simp [tailGroups]
  | a :: rest, seen, k, v => by
    by_cases hm : key a ∈ seen
    · rw [tailGroups, if_pos hm, mem_tailGroups_iff key base push rest seen k v]
      constructor
      · rintro ⟨hks, x, xs, hf, hv⟩
        have hka : ¬ (key a = k) := fun he => hks (he ▸ hm)
        refine ⟨hks, x, xs, ?_, hv⟩
        rw [List.filter_cons, if_neg (by simp [hka])]
        exact hf
      · rintro ⟨hks, x, xs, hf, hv⟩
        have hka : ¬ (key a = k) := fun he => hks (he ▸ hm)
        rw [List.filter_cons, if_neg (by simp [hka])] at hf
        exact ⟨hks, x, xs, hf, hv⟩
    · rw [tailGroups, if_neg hm, List.mem_cons,
        mem_tailGroups_iff key base push rest (key a :: seen) k v]
      constructor
      · rintro (he | ⟨hks, x, xs, hf, hv⟩)
        · rw [Prod.mk.injEq] at he
          obtain ⟨hk, hv⟩ := he
          refine ⟨by rw [hk]; exact hm, a,
            rest.filter (fun y => decide (key y = k)), ?_, ?_⟩
          · rw [List.filter_cons, if_pos (by simp [hk.symm])]
          · rw [hv, hk]
        · have hka : ¬ (key a = k) :=
            fun he2 => hks (he2 ▸ List.mem_cons_self (key a) seen)
          have hks2 : k ∉ seen := fun h => hks (List.mem_cons_of_mem _ h)
          refine ⟨hks2, x, xs, ?_, hv⟩
          rw [List.filter_cons, if_neg (by simp [hka])]
          exact hf
      · rintro ⟨hks, x, xs, hf, hv⟩
        by_cases hka : key a = k
        · left
          rw [List.filter_cons, if_pos (by simp [hka])] at hf
          injection hf with hx hxs
          rw [Prod.mk.injEq]
          refine ⟨hka.symm, ?_⟩
          rw [hv, ← hxs, ← hx, ← hka]
        · right
          have hks' : k ∉ key a :: seen := by
            intro h
            rcases List.mem_cons.mp h with he | hseen
            · exact hka he.symm
            · exact hks hseen
          rw [List.filter_cons, if_neg (by simp [hka])] at hf
          exact ⟨hks', x, xs, hf, hv⟩

/-- A fold that skips the elements failing `C` equals the fold over the
filtered list. -/
theorem foldl_if_filter {α σ : Type} (C : α → Prop) [DecidablePred C] (g : σ → α → σ) :
    ∀ (l : List α) (acc : σ),
      l.foldl (fun acc a => if C a then g acc a else acc) acc =
        (l.filter (fun a => decide (C a))).foldl g acc
  | [], _ => rfl
  | a :: l, acc => by
    by_cases h : C a
    · rw [List.foldl_cons, if_pos h, List.filter_cons, if_pos (by simp [h]),
        List.foldl_cons]
      exact foldl_if_filter C g l (g acc a)
    · rw [List.foldl_cons, if_neg h, List.filter_cons, if_neg (by simp [h])]
      exact foldl_if_filter C g l acc

theorem foldl_append_pid :
    ∀ (xs : List ProgramRecord) (v : List String),
      xs.foldl (fun v p => v ++ [p.programId]) v = v ++ xs.map (fun p => p.programId)
  | [], v => by simp
  | p :: xs, v => by
    rw [List.foldl_cons, foldl_append_pid xs (v ++ [p.programId])]
    simp

/-- The `dependency_patterns` dictionary is the first-seen grouping of the
eligible programs by their sorted dependency tuple. -/
theorem patternFold_eq (programs : List ProgramRecord) :
    patternFold programs =
      tailGroups patKey (fun p => [p.programId]) (fun p v => v ++ [p.programId]) []
        (programs.filter (fun p => decide (patKey p ≠ [] ∧ (patKey p).length > 1))) := by
  have h1 : patternFold programs =
      (programs.filter (fun p => decide (patKey p ≠ [] ∧ (patKey p).length > 1))).foldl
        (fun acc p => upsert (patKey p) [p.programId] (fun v => v ++ [p.programId]) acc)
        [] :=
    foldl_if_filter (fun p => patKey p ≠ [] ∧ (patKey p).length > 1) _ programs []
  have h2 := foldl_upsert_eq patKey (fun p => [p.programId])
    (fun p v => v ++ [p.programId])
    (programs.filter (fun p => decide (patKey p ≠ [] ∧ (patKey p).length > 1))) []
    (by simp [keysOf])
  rw [h1, h2]
  simp [keysOf]

/-- For a pattern longer than one entry, filtering the eligible programs down
to that pattern is the same as filtering all programs. -/
theorem filter_elig_collapse (programs : List ProgramRecord) (pat : List String)
    (hlen : 1 < pat.length) :
    (programs.filter (fun p => decide (patKey p ≠ [] ∧ (patKey p).length > 1))).filter
        (fun p => decide (patKey p = pat)) =
      programs.filter (fun p => decide (patKey p = pat)) := by
  rw [List.filter_filter]
  apply List.filter_congr
  intro p _
  by_cases h : patKey p = pat
  · have hne : pat ≠ [] := by
      intro he
      rw [he] at hlen
      simp at hlen
    simp [h, hne, hlen]
  · simp [h]

/-- The full membership characterization of a reported duplicate-dependency
entry. -/
theorem mem_duplicate_dependencies_iff (programs : List ProgramRecord)
    (pat pids : List String) :
    DupEntry.mk pat pids ∈ (refactoring_opportunities programs).duplicate_dependencies ↔
      (1 < pat.length ∧
        pids = (programs.filter (fun p => decide (patKey p = pat))).map
          (fun p => p.programId) ∧
        1 < pids.length) := by
  have hshow : (refactoring_opportunities programs).duplicate_dependencies =
      ((patternFold programs).filter (fun kv => decide (kv.2.length > 1))).map
        (fun kv => DupEntry.mk kv.1 kv.2) := rfl
  rw [hshow]
  constructor
  · intro h
    rw [List.mem_map] at h
    obtain ⟨kv, hkv, hmk⟩ := h
    obtain ⟨k, v⟩ := kv
    rw [DupEntry.mk.injEq] at hmk
    obtain ⟨hk, hv⟩ := hmk
    dsimp only at hk hv
    rw [List.mem_filter] at hkv
    obtain ⟨hmem, hlen⟩ := hkv
    simp only [decide_eq_true_eq] at hlen
    rw [patternFold_eq, mem_tailGroups_iff] at hmem
    obtain ⟨-, x, xs, hf, hv2⟩ := hmem
    have hxmem : x ∈ (programs.filter
        (fun p => decide (patKey p ≠ [] ∧ (patKey p).length > 1))).filter
          (fun y => decide (patKey y = k)) := by
      rw [hf]
      exact List.mem_cons_self x xs
    have hx := (List.mem_filter.mp hxmem).1
    have hxpat : patKey x = k := by
      have h2 := (List.mem_filter.mp hxmem).2
      simpa using h2
    have hxelig : (patKey x).length > 1 := by
      have h2 := (List.mem_filter.mp hx).2
      simp only [decide_eq_true_eq] at h2
      exact h2.2
    have hpat : 1 < pat.length := by
      rw [← hk, ← hxpat]
      exact hxelig
    rw [hk] at hf
    rw [filter_elig_collapse programs pat hpat] at hf
    have hval : pids = (programs.filter (fun p => decide (patKey p = pat))).map
        (fun p => p.programId) := by
      rw [hf, ← hv, hv2]
      simp only [foldl_append_pid]
      rfl
    refine ⟨hpat, hval, ?_⟩
    rw [← hv]
    exact hlen
  · rintro ⟨hpat, hval, hlen⟩
    rw [List.mem_map]
    refine ⟨(pat, pids), ?_, rfl⟩
    rw [List.mem_filter]
    have hnonempty : programs.filter (fun p => decide (patKey p = pat)) ≠ [] := by
      intro he
      rw [he] at hval
      simp only [List.map_nil] at hval
      rw [hval] at hlen
      simp at hlen
    obtain ⟨x, xs, hf⟩ : ∃ x xs,
        programs.filter (fun p => decide (patKey p = pat)) = x :: xs := by
      cases hcase : programs.filter (fun p => decide (patKey p = pat)) with
      | nil => exact absurd hcase hnonempty
      | cons x xs => exact ⟨x, xs, rfl⟩
    constructor
    · rw [patternFold_eq, mem_tailGroups_iff]
      refine ⟨by simp, x, xs, ?_, ?_⟩
      · rw [filter_elig_collapse programs pat hpat]
        exact hf
      · rw [hval, hf]
        simp only [foldl_append_pid]
        rfl
    · simp only [decide_eq_true_eq]
      exact hlen

/-! ## Claim C5 -/

/-- Two stored records whose dependency list holds the same name twice. -/
def dupP1 : ProgramRecord := ⟨"P1", ["A", "A"], "Low", 10⟩

def dupP2 : ProgramRecord := ⟨"P2", ["A", "A"], "Low", 10⟩

/-- Claim C5 (corrected), counterexample.  The source groups by
`tuple(sorted(deps))` without deduplication: for two records each depending
twice on `A`, the sorted tuple `(A, A)` has two elements, so the code
reports a duplicate-dependency entry with pattern `[A, A]` - but the
deduplicated tuple `(A)` has only one element, so under the claim (grouping
by the sorted, *deduplicated* tuple, eligible only beyond one element) no
entry would be reported. -/
theorem C5_counterexample_no_dedup :
    (refactoring_opportunities [dupP1, dupP2]).duplicate_dependencies =
        [DupEntry.mk ["A", "A"] ["P1", "P2"]] ∧
      (["A", "A"] : List String).dedup.length = 1 := by
  refine ⟨?_, ?_⟩ <;> decide

/-- The three units of Scenario B: two sharing the dependency set `{A, B}`
and one with no dependencies. -/
def unitU1 : ProgramRecord := ⟨"U1", ["A", "B"], "Low", 10⟩

def unitU2 : ProgramRecord := ⟨"U2", ["A", "B"], "Low", 20⟩

def unitU3 : ProgramRecord := ⟨"U3", [], "Low", 30⟩

/-- Claim C5 as amended: duplicate-dependency detection groups units by the
*sorted* (not deduplicated) tuple of their dependency lists, considers only
groups whose tuple has more than one element, and reports exactly those
patterns shared by more than one unit (the entry lists precisely the units
whose sorted tuple equals the pattern, in order); for the 3-unit scenario -
two units sharing the 2-dependency set `{A, B}`, one without dependencies -
the analysis reports `isolated_programs = 1` and the single pattern entry
`[A, B]` listing both sharing units. -/
theorem C5_duplicate_pattern_grouping :
    ((relationship_report [unitU1, unitU2, unitU3]).isolated_programs = 1 ∧
        (refactoring_opportunities [unitU1, unitU2, unitU3]).duplicate_dependencies =
          [DupEntry.mk ["A", "B"] ["U1", "U2"]]) ∧
      ∀ (programs : List ProgramRecord) (pat pids : List String),
        DupEntry.mk pat pids ∈
            (refactoring_opportunities programs).duplicate_dependencies ↔
          (1 < pat.length ∧
            pids = (programs.filter (fun p => decide (patKey p = pat))).map
              (fun p => p.programId) ∧
            1 < pids.length) := by
  exact ⟨⟨by decide, by decide⟩, mem_duplicate_dependencies_iff⟩

end CodeSense
